import Mathlib

/-! rustyhub: the serde sidebar index.

`serde/sidebar-items.js` is one statement: a call of `initSidebarItems` on an
object literal.  The literal maps a category label to an array of entries and
every entry is an array `[name, description]`.

The embedding keeps the literal as an untyped JavaScript value, so that the
shape of the data (arrays of length two, string elements, distinct keys) is
something to be proved and not something the types already say.
-/

set_option autoImplicit false

namespace SidebarItems

/-- JavaScript values occurring in the file: string literals, array literals
and object literals.  An object literal is kept as the list of its members in
source order. -/
inductive JsValue where
  | str (s : String)
  | arr (items : List JsValue)
  | obj (members : List (String × JsValue))

/-- An expression statement that calls a global function. -/
structure CallStmt where
  callee : String
  args : List JsValue

/-- The entries written under the key `"macro"` of the literal. -/
def macroEntries : List JsValue :=
  [ .arr [.str "forward_to_deserialize",
          .str "Helper to forward `Deserializer` methods to `Deserializer::deserialize`. Every given method ignores all arguments and forwards to `deserialize`. Note that `deserialize_enum` simply returns an `Error::invalid_type`; a better approach is tracked in [serde-rs/serde#521][1]."] ]

/-- The entries written under the key `"mod"` of the literal. -/
def modEntries : List JsValue :=
  [ .arr [.str "bytes", .str "Helper module to enable serializing bytes more efficiently"],
    .arr [.str "de", .str "Generic deserialization framework."],
    .arr [.str "iter", .str "Module that contains helper iterators."],
    .arr [.str "ser",
          .str "Generic serialization framework. # For Developers who want to serialize objects Implement the `Serialize` trait for the type of objects you want to serialize. Call methods of the `serializer` object. For which methods to call and how to do so, look at the documentation of the `Serializer` trait."] ]

/-- The members of the object literal, in source order. -/
def sidebarMembers : List (String × JsValue) :=
  [ ("macro", .arr macroEntries), ("mod", .arr modEntries) ]

/-- The object literal passed to `initSidebarItems`. -/
def initSidebarItemsArg : JsValue := .obj sidebarMembers

/-- The whole file: `initSidebarItems({...});`. -/
def sidebarItemsJs : CallStmt :=
  { callee := "initSidebarItems", args := [initSidebarItemsArg] }

/-- Array indexing `v[i]`; `none` stands for `undefined`. -/
def JsValue.index : JsValue → Nat → Option JsValue
  | .arr items, i => items[i]?
  | _, _ => none

/-- The string a value is, when it is a string. -/
def JsValue.asString : JsValue → Option String
  | .str s => some s
  | _ => none

/-- The name of an entry: its first element, when that is a string. -/
def entryName (e : JsValue) : Option String :=
  (e.index 0).bind JsValue.asString

/-- The description of an entry: its second element, when that is a string. -/
def entryDescription (e : JsValue) : Option String :=
  (e.index 1).bind JsValue.asString

/-- The members of an object, in source order; no members for other values. -/
def JsValue.members : JsValue → List (String × JsValue)
  | .obj ms => ms
  | _ => []

/-- The category keys of an object, in source order. -/
def categoryKeys : JsValue → List String
  | .obj members => members.map Prod.fst
  | _ => []

/-- The number of elements of a value that is an array, zero otherwise. -/
def JsValue.length : JsValue → Nat
  | .arr items => items.length
  | _ => 0

/-- The total number of entries over all categories. -/
def entryCount : JsValue → Nat
  | .obj members => (members.map fun m => m.2.length).sum
  | _ => 0

/-- ASCII letter, by code point. -/
def isAsciiLetter (c : Char) : Bool :=
  (65 ≤ c.toNat && c.toNat ≤ 90) || (97 ≤ c.toNat && c.toNat ≤ 122)

/-- ASCII digit, by code point. -/
def isAsciiDigit (c : Char) : Bool :=
  48 ≤ c.toNat && c.toNat ≤ 57

/-- Identifier strings: non-empty, a letter or underscore first, then letters,
digits and underscores only. -/
def isIdentifier (s : String) : Bool :=
  match s.data with
  | [] => false
  | c :: cs =>
    (isAsciiLetter c || c == '_') &&
      (c :: cs).all fun d => isAsciiLetter d || isAsciiDigit d || d == '_'

/-- One-line strings: neither a line feed (10) nor a carriage return (13). -/
def isOneLine (s : String) : Bool :=
  s.data.all fun c => c.toNat != 10 && c.toNat != 13

/-- Lexicographic comparison of character sequences by code point, the order
of the JavaScript operator `<` on strings: a proper prefix is smaller, else
the first differing position decides. -/
def lexLt : List Char → List Char → Bool
  | [], [] => false
  | [], _ :: _ => true
  | _ :: _, [] => false
  | a :: s, b :: t => decide (a.toNat < b.toNat) || (a.toNat == b.toNat && lexLt s t)

/-- Strict lexicographic order on strings. -/
def nameLt (x y : String) : Bool := lexLt x.data y.data

/-- Entries in strictly ascending lexicographic order of name: of two entries
the earlier one has the smaller name, and both have one. -/
def StrictlyAscending (es : List JsValue) : Prop :=
  es.Pairwise fun a b =>
    ∃ x y, entryName a = some x ∧ entryName b = some y ∧ nameLt x y = true

/-- Entries at different positions have different names. -/
def UniqueNames (es : List JsValue) : Prop :=
  ∀ (i j : Nat) (hi : i < es.length) (hj : j < es.length), i ≠ j →
    entryName es[i] ≠ entryName es[j]

/-! ## Helper lemmas -/

theorem entries_cases {cat : String} {es : List JsValue}
    (h : (cat, JsValue.arr es) ∈ initSidebarItemsArg.members) :
    (cat = "macro" ∧ es = macroEntries) ∨ (cat = "mod" ∧ es = modEntries) := by
  simpa [initSidebarItemsArg, JsValue.members, sidebarMembers] using h

theorem member_cases {cat : String} {v : JsValue}
    (h : (cat, v) ∈ initSidebarItemsArg.members) :
    (cat = "macro" ∧ v = .arr macroEntries) ∨ (cat = "mod" ∧ v = .arr modEntries) := by
  simpa [initSidebarItemsArg, JsValue.members, sidebarMembers] using h

theorem lexLt_irrefl (l : List Char) : lexLt l l = false := by
  induction l with
  | nil => rfl
  | cons a s ih => simp [lexLt, ih]

theorem uniqueNames_of_nodup {es : List JsValue} (h : (es.map entryName).Nodup) :
    UniqueNames es := by
  intro i j hi hj hij heq
  have hi2 : i < (es.map entryName).length := by simpa using hi
  have hj2 : j < (es.map entryName).length := by simpa using hj
  have key : (es.map entryName)[i] = (es.map entryName)[j] := by
    simpa using heq
  exact hij ((List.Nodup.getElem_inj_iff h).1 key)

theorem uniqueNames_of_strictlyAscending {es : List JsValue} (h : StrictlyAscending es) :
    UniqueNames es := by
  have irr : ∀ a b : JsValue,
      (∃ x y, entryName a = some x ∧ entryName b = some y ∧ nameLt x y = true) →
        entryName a ≠ entryName b := by
    rintro a b ⟨x, y, hx, hy, hlt⟩ heq
    have hxy : x = y := by
      rw [hx, hy] at heq
      exact Option.some.inj heq
    subst hxy
    simp [nameLt, lexLt_irrefl] at hlt
  have hp := List.pairwise_iff_getElem.1 h
  intro i j hi hj hij
  rcases Nat.lt_or_gt_of_ne hij with hlt | hgt
  · exact irr _ _ (hp i j hi hj hlt)
  · exact fun heq => irr _ _ (hp j i hj hi hgt) heq.symm

/-! ## The claims -/

/-- C1: in the object passed to `initSidebarItems`, for every category and
every two entries at different positions of that category's list, the names
(first elements) of the two entries differ. -/
theorem names_unique_within_category (cat : String) (es : List JsValue)
    (hcat : (cat, JsValue.arr es) ∈ initSidebarItemsArg.members)
    (i j : Nat) (hi : i < es.length) (hj : j < es.length) (hij : i ≠ j) :
    entryName es[i] ≠ entryName es[j] := by
  have h : UniqueNames es := by
    apply uniqueNames_of_nodup
    rcases entries_cases hcat with ⟨-, rfl⟩ | ⟨-, rfl⟩
    · decide
    · decide
  exact h i j hi hj hij

theorem names_unique_within_category_witness :
    entryName modEntries[1] ≠ entryName modEntries[3] :=
  names_unique_within_category "mod" modEntries
    (by simp [initSidebarItemsArg, JsValue.members, sidebarMembers])
    1 3 (by decide) (by decide) (by decide)

/-- C2: the file calls `initSidebarItems` on one argument, an object whose
every member value is an array, every element of which is an array of exactly
two strings `[name, description]`. -/
theorem argument_is_mapping_to_string_pairs :
    sidebarItemsJs.callee = "initSidebarItems" ∧
    ∃ ms, sidebarItemsJs.args = [JsValue.obj ms] ∧
      ∀ cat v, (cat, v) ∈ ms →
        ∃ es, v = JsValue.arr es ∧
          ∀ e, e ∈ es → ∃ n d, e = JsValue.arr [JsValue.str n, JsValue.str d] := by
  refine ⟨rfl, sidebarMembers, rfl, ?_⟩
  intro cat v hv
  rcases member_cases hv with ⟨-, rfl⟩ | ⟨-, rfl⟩
  · refine ⟨_, rfl, ?_⟩
    intro e he
    simp only [macroEntries, List.mem_cons, List.mem_singleton, List.not_mem_nil,
      or_false] at he
    subst he
    exact ⟨_, _, rfl⟩
  · refine ⟨_, rfl, ?_⟩
    intro e he
    simp only [modEntries, List.mem_cons, List.mem_singleton, List.not_mem_nil,
      or_false] at he
    rcases he with rfl | rfl | rfl | rfl <;> exact ⟨_, _, rfl⟩

/-- C3: the category keys of the sidebar index are exactly `"macro"` and
`"mod"`: a key occurs if and only if it is one of the two, the two differ, and
no key is written twice. -/
theorem category_keys_exact :
    (∀ k, k ∈ categoryKeys initSidebarItemsArg ↔ (k = "macro" ∨ k = "mod")) ∧
    "macro" ≠ "mod" ∧
    (categoryKeys initSidebarItemsArg).Nodup ∧
    (categoryKeys initSidebarItemsArg).length = 2 := by
  refine ⟨?_, by decide, by decide, rfl⟩
  intro k
  simp [categoryKeys, initSidebarItemsArg, sidebarMembers]

/-- C4: every category label (key) of the sidebar index is a non-empty
string. -/
theorem category_labels_nonempty (k : String)
    (hk : k ∈ categoryKeys initSidebarItemsArg) : k ≠ "" ∧ 0 < k.length := by
  have h : k = "macro" ∨ k = "mod" := by
    simpa [categoryKeys, initSidebarItemsArg, sidebarMembers] using hk
  rcases h with rfl | rfl
  · exact ⟨by decide, by decide⟩
  · exact ⟨by decide, by decide⟩

theorem category_labels_nonempty_witness : "mod" ≠ "" ∧ 0 < "mod".length :=
  category_labels_nonempty "mod" (by decide)

/-- C5: the name of every entry in every category is an identifier string:
non-empty, starting with an ASCII letter or underscore, and made of ASCII
letters, digits and underscores only. -/
theorem names_are_identifiers (cat : String) (es : List JsValue) (e : JsValue)
    (hcat : (cat, JsValue.arr es) ∈ initSidebarItemsArg.members) (he : e ∈ es) :
    ∃ n, entryName e = some n ∧ isIdentifier n = true := by
  rcases entries_cases hcat with ⟨-, rfl⟩ | ⟨-, rfl⟩
  · simp only [macroEntries, List.mem_cons, List.mem_singleton, List.not_mem_nil,
      or_false] at he
    subst he
    exact ⟨_, rfl, by decide⟩
  · simp only [modEntries, List.mem_cons, List.mem_singleton, List.not_mem_nil,
      or_false] at he
    rcases he with rfl | rfl | rfl | rfl <;> exact ⟨_, rfl, by decide⟩

theorem names_are_identifiers_witness :
    ∃ n, entryName (JsValue.arr [.str "de", .str "Generic deserialization framework."])
        = some n ∧ isIdentifier n = true :=
  names_are_identifiers "mod" modEntries _
    (by simp [initSidebarItemsArg, JsValue.members, sidebarMembers])
    (by simp [modEntries])

set_option maxRecDepth 100000 in
/-- C6: the description of every entry in every category is a one-line
string: it holds no line feed and no carriage return. -/
theorem descriptions_are_one_line (cat : String) (es : List JsValue) (e : JsValue)
    (hcat : (cat, JsValue.arr es) ∈ initSidebarItemsArg.members) (he : e ∈ es) :
    ∃ d, entryDescription e = some d ∧ isOneLine d = true ∧
      ∀ c, c ∈ d.data → c.toNat ≠ 10 ∧ c.toNat ≠ 13 := by
  have key : ∃ d, entryDescription e = some d ∧ isOneLine d = true := by
    rcases entries_cases hcat with ⟨-, rfl⟩ | ⟨-, rfl⟩
    · simp only [macroEntries, List.mem_cons, List.mem_singleton, List.not_mem_nil,
        or_false] at he
      subst he
      exact ⟨_, rfl, by decide⟩
    · simp only [modEntries, List.mem_cons, List.mem_singleton, List.not_mem_nil,
        or_false] at he
      rcases he with rfl | rfl | rfl | rfl <;> exact ⟨_, rfl, by decide⟩
  obtain ⟨d, hd, hline⟩ := key
  refine ⟨d, hd, hline, ?_⟩
  intro c hc
  have := List.all_eq_true.1 hline c hc
  simpa using this

theorem descriptions_are_one_line_witness :
    ∃ d, entryDescription (JsValue.arr [.str "iter", .str "Module that contains helper iterators."])
        = some d ∧ isOneLine d = true ∧ ∀ c, c ∈ d.data → c.toNat ≠ 10 ∧ c.toNat ≠ 13 :=
  descriptions_are_one_line "mod" modEntries _
    (by simp [initSidebarItemsArg, JsValue.members, sidebarMembers])
    (by simp [modEntries])

/-- C7: within each category's list the entries are in strictly ascending
lexicographic order of name; under `"mod"` the names are bytes, de, iter, ser
with bytes < de < iter < ser; and for any list of entries strictly ascending
order entails that names at different positions differ. -/
theorem entries_strictly_ascending_by_name :
    (∀ cat es, (cat, JsValue.arr es) ∈ initSidebarItemsArg.members →
      StrictlyAscending es) ∧
    (∃ es, ("mod", JsValue.arr es) ∈ initSidebarItemsArg.members ∧
      es.map entryName = [some "bytes", some "de", some "iter", some "ser"] ∧
      nameLt "bytes" "de" = true ∧ nameLt "de" "iter" = true ∧
      nameLt "iter" "ser" = true) ∧
    (∀ es, StrictlyAscending es → UniqueNames es) := by
  refine ⟨?_, ⟨modEntries, ?_, rfl, by decide, by decide, by decide⟩, ?_⟩
  · intro cat es hcat
    rcases entries_cases hcat with ⟨-, rfl⟩ | ⟨-, rfl⟩
    · simp [StrictlyAscending, macroEntries]
    · simp only [StrictlyAscending, modEntries, List.pairwise_cons, List.mem_cons,
        List.mem_singleton, List.not_mem_nil, forall_eq_or_imp, forall_eq,
        List.Pairwise.nil, and_true, IsEmpty.forall_iff, implies_true]
      refine ⟨⟨?_, ?_, ?_⟩, ⟨?_, ?_⟩, ?_⟩ <;> exact ⟨_, _, rfl, rfl, by decide⟩
  · simp [initSidebarItemsArg, JsValue.members, sidebarMembers]
  · intro es h
    exact uniqueNames_of_strictlyAscending h

set_option maxRecDepth 100000 in
/-- C8: the sidebar index has exactly five entries in total; the `"macro"`
list has exactly the name forward_to_deserialize and the `"mod"` list exactly
the names bytes, de, iter, ser in that order; the list of every category is
non-empty and every description is a non-empty string. -/
theorem index_has_exactly_five_entries :
    entryCount initSidebarItemsArg = 5 ∧
    (∃ m d, initSidebarItemsArg = JsValue.obj [("macro", JsValue.arr m), ("mod", JsValue.arr d)] ∧
      m.length = 1 ∧ m.map entryName = [some "forward_to_deserialize"] ∧
      d.length = 4 ∧ d.map entryName = [some "bytes", some "de", some "iter", some "ser"]) ∧
    (∀ cat v, (cat, v) ∈ initSidebarItemsArg.members → 0 < v.length) ∧
    (∀ cat es e, (cat, JsValue.arr es) ∈ initSidebarItemsArg.members → e ∈ es →
      ∃ t, entryDescription e = some t ∧ t ≠ "" ∧ 0 < t.length) := by
  refine ⟨by decide, ⟨macroEntries, modEntries, rfl, rfl, rfl, rfl, rfl⟩, ?_, ?_⟩
  · intro cat v hv
    rcases member_cases hv with ⟨-, rfl⟩ | ⟨-, rfl⟩
    · decide
    · decide
  · intro cat es e hcat he
    rcases entries_cases hcat with ⟨-, rfl⟩ | ⟨-, rfl⟩
    · simp only [macroEntries, List.mem_cons, List.mem_singleton, List.not_mem_nil,
        or_false] at he
      subst he
      exact ⟨_, rfl, by decide, by decide⟩
    · simp only [modEntries, List.mem_cons, List.mem_singleton, List.not_mem_nil,
        or_false] at he
      rcases he with rfl | rfl | rfl | rfl <;> exact ⟨_, rfl, by decide, by decide⟩

end SidebarItems
